import Mathlib

/-!
# Verification of the CompressImage node (n8n-nodes-image-compress)

A shallow embedding of `src/dist/nodes/CompressImage/CompressImage.node.js`
(the TypeScript text after the separator is the same code; line numbers below
refer to the TypeScript half, lines 247-508).  JavaScript numbers are modelled
as rationals (`ℚ`); `Math.round` is modelled by its ECMAScript semantics
`⌊x + 1/2⌋`; byte buffers are lists of naturals; JSON objects and binary-slot
maps are association lists of string keys.
-/

namespace CompressImage

/-- `clamp(value, min, max)` from lines 251-253:
`Math.min(Math.max(value, min), max)`. -/
def clamp (value lo hi : ℚ) : ℚ := min (max value lo) hi

/-- JavaScript `Math.round(x)`: ECMAScript specifies the integer closest to
`x`, with half-values rounding toward +∞, i.e. `⌊x + 1/2⌋` (half away from
zero for positive arguments). -/
def jsRound (x : ℚ) : ℤ := ⌊x + 1/2⌋

/-- `pngCompressionLevelFromQuality(quality)` from lines 255-259:
`q = clamp(Math.round(quality), 0, 100);
level = Math.round(((100 - q) * 9) / 100); return clamp(level, 0, 9)`.
On the rationals this is exact: the only tie point of the inner division,
`(100 - q) * 9 / 100 = 4.5` at `q = 50`, is exactly representable as a
binary double, and every other value of the division is at distance
`≥ 1/100` from a half-integer, far above double rounding error, so the
float computation agrees with the rational one. -/
def pngCompressionLevelFromQuality (quality : ℚ) : ℚ :=
  let q : ℚ := clamp (jsRound quality) 0 100
  let level : ℚ := jsRound ((100 - q) * 9 / 100)
  clamp level 0 9

/-- `getMimeAndExt(format)` from lines 261-275 (switch over the format
string; the pair is `(mime, ext)`). -/
def getMimeAndExt (format : String) : String × String :=
  if format = "jpg" ∨ format = "jpeg" then ("image/jpeg", "jpg")
  else if format = "png" then ("image/png", "png")
  else if format = "webp" then ("image/webp", "webp")
  else if format = "avif" then ("image/avif", "avif")
  else ("application/octet-stream", "bin")

/-- `path.parse(f).name` (node:path, posix): the base name (the part after
the last `/`) with its final extension removed; the extension starts at the
last `.` of the base name unless that `.` is its first character (so a
lone leading dot, as in `.bashrc`, is not an extension). -/
def parseNameChars (s : List Char) : List Char :=
  let b := ((s.reverse).takeWhile (fun c => c ≠ '/')).reverse
  let tailLen := ((b.reverse).takeWhile (fun c => c ≠ '.')).length
  if tailLen = b.length ∨ tailLen + 1 = b.length then b
  else b.take (b.length - tailLen - 1)

/-- String wrapper for `parseNameChars`. -/
def parseName (s : String) : String := String.mk (parseNameChars s.data)

/-- Lines 477-479: `baseName = originalFileName ? path.parse(originalFileName).name
: 'image'; outFileName = baseName + '.' + ext`.  The JS truthiness test makes
both `undefined` and the empty string fall back to `image`. -/
def outFileName (originalFileName : Option String) (format : String) : String :=
  let ext := (getMimeAndExt format).2
  let baseName :=
    match originalFileName with
    | some f => if f = "" then "image" else parseName f
    | none => "image"
  baseName ++ "." ++ ext

/-- Line 432: `maxBytes = Math.max(1, Math.floor(maxInputSizeMb)) * 1024 * 1024`. -/
def maxBytesOf (maxInputSizeMb : ℚ) : ℤ :=
  max 1 ⌊maxInputSizeMb⌋ * 1024 * 1024

/-- Lines 431-435: the size guard; throws when `originalSize > maxBytes`,
otherwise lets the record continue. -/
def sizeGuard (originalSize : ℕ) (maxInputSizeMb : ℚ) : Except String Unit :=
  if (originalSize : ℤ) > maxBytesOf maxInputSizeMb then
    Except.error ("Input image is too large. Max allowed exceeded.")
  else Except.ok ()

/-- Line 475: `percentReduction = originalSize > 0 ?
((originalSize - newSize) / originalSize) * 100 : 0`. -/
def percentReduction (originalSize newSize : ℕ) : ℚ :=
  if 0 < originalSize then (((originalSize : ℚ) - (newSize : ℚ)) / (originalSize : ℚ)) * 100
  else 0

/-- The `resize` collection parameter (line 403): each dimension is either
absent (`undefined`) or a JS number; the aspect flag is either absent or a
boolean.  `maintainAspect` models the source field `maintainAspectRatio`. -/
structure ResizeSpec where
  width : Option ℚ
  height : Option ℚ
  maintainAspect : Option Bool
deriving DecidableEq

/-- The `fit` option passed to sharp's resize. -/
inductive Fit where
  | inside
  | fill
deriving DecidableEq

/-- The argument object of the `image.resize({...})` call on lines 444-449. -/
structure ResizeCall where
  width : Option ℤ
  height : Option ℤ
  fit : Fit
  withoutEnlargement : Bool
deriving DecidableEq

/-- JS truthiness of `width || height` on line 443: a JS number is truthy
iff it is nonzero, and `undefined` is falsy. -/
def jsTruthyNum : Option ℤ → Bool
  | some n => n != 0
  | none => false

/-- Lines 439-440, one dimension: `typeof resize.width === 'number' &&
resize.width > 0 ? Math.floor(resize.width) : undefined`. -/
def dimOf : Option ℚ → Option ℤ
  | some x => if 0 < x then some ⌊x⌋ else none
  | none => none

/-- Lines 439-450: `width`/`height` as computed by `dimOf`;
`maintainAspectRatio = resize.maintainAspectRatio !== false`; the resize call
is made only when `width || height` is truthy, with
`fit: maintainAspectRatio ? 'inside' : 'fill'` and `withoutEnlargement: true`.
Returns the call's argument object, or `none` when no resize is invoked. -/
def resizeCallOf (r : ResizeSpec) : Option ResizeCall :=
  let width : Option ℤ := dimOf r.width
  let height : Option ℤ := dimOf r.height
  let maintainAspect : Bool := decide (r.maintainAspect ≠ some false)
  if jsTruthyNum width || jsTruthyNum height then
    some { width := width, height := height,
           fit := if maintainAspect then Fit.inside else Fit.fill,
           withoutEnlargement := true }
  else none

/-- Splits a character list at its first `;`: returns the (possibly empty)
run of non-`;` characters and everything after that first `;`, or `none`
when the list has no `;`. -/
def breakAtSemi : List Char → Option (List Char × List Char)
  | [] => none
  | c :: cs =>
    if c = ';' then some ([], cs)
    else (breakAtSemi cs).map (fun p => (c :: p.1, p.2))

/-- Line 426: `cleaned = b64raw.replace(/^data:[^;]+;base64,/, '')`.
The anchored pattern matches iff the string starts with `data:`, has at
least one non-`;` character before its first `;`, and that first `;`
begins the literal `;base64,`; `replace` with a non-global regex deletes
that single match, otherwise the string is unchanged. -/
def stripDataUriChars (s : List Char) : List Char :=
  if s.take 5 = ('d' :: 'a' :: 't' :: 'a' :: ':' :: []) then
    match breakAtSemi (s.drop 5) with
    | some (pre, rest) =>
      if pre ≠ [] ∧ rest.take 7 = ('b' :: 'a' :: 's' :: 'e' :: '6' :: '4' :: ',' :: []) then
        rest.drop 7
      else s
    | none => s
  else s

/-- Value of a character in the Base64 alphabet (also accepting the URL-safe
alphabet, as Node does), or `none` for a character outside the alphabet. -/
def base64CharVal (c : Char) : Option ℕ :=
  if 'A' ≤ c ∧ c ≤ 'Z' then some (c.toNat - 65)
  else if 'a' ≤ c ∧ c ≤ 'z' then some (c.toNat - 97 + 26)
  else if '0' ≤ c ∧ c ≤ '9' then some (c.toNat - 48 + 52)
  else if c = '+' ∨ c = '-' then some 62
  else if c = '/' ∨ c = '_' then some 63
  else none

/-- Packs a list of Base64 sextet values into bytes, four sextets to three
bytes, with a trailing group of three or two sextets contributing two or
one bytes and a lone trailing sextet contributing nothing. -/
def base64Regroup : List ℕ → List ℕ
  | a :: b :: c :: d :: rest =>
    (a * 4 + b / 16) :: ((b % 16) * 16 + c / 4) :: ((c % 4) * 64 + d) :: base64Regroup rest
  | a :: b :: c :: [] => (a * 4 + b / 16) :: ((b % 16) * 16 + c / 4) :: []
  | a :: b :: [] => (a * 4 + b / 16) :: []
  | _ :: [] => []
  | [] => []

/-- Modelled from the spec: line 427 calls Node's `Buffer.from(cleaned,
'base64')`, which is not part of this repository; spec §4.1 says the decoder
"must tolerate/clean standard Base64 alphabet; no strict validation is
required beyond prefix stripping", so characters outside the alphabet are
dropped and the remaining sextets are packed into bytes. -/
def base64DecodeChars (s : List Char) : List ℕ :=
  base64Regroup (s.filterMap base64CharVal)

/-- Lines 426-427: the byte buffer obtained from a Base64 field value:
strip one leading data-URI marker, then Base64-decode what remains. -/
def resolveBase64Field (b64raw : String) : List ℕ :=
  base64DecodeChars (stripDataUriChars b64raw.data)

/-- One named binary payload of an n8n item (`fileName`, `mimeType`, bytes). -/
structure BinaryData where
  fileName : Option String
  mimeType : Option String
  data : List ℕ
deriving DecidableEq

/-- A JSON value as far as this node's outputs need: primitive fields and
the nested `compression` summary object of lines 486-491
(`originalSize`, `newSize`, `percentReduction`, `format`). -/
inductive JValue where
  | str : String → JValue
  | num : ℚ → JValue
  | bool : Bool → JValue
  | comp : ℕ → ℕ → ℚ → String → JValue
deriving DecidableEq

/-- One n8n execution item: a structured-data map and a binary-slot map. -/
structure Item where
  json : List (String × JValue)
  binary : List (String × BinaryData)
deriving DecidableEq

/-- JS object spread plus one assigned key, `{ ...obj, [k]: v }`: if `k` is
already present its value is replaced in place, otherwise the pair is
appended (insertion order preserved, as in JS objects). -/
def setKey {α : Type} (fields : List (String × α)) (k : String) (v : α) :
    List (String × α) :=
  if fields.any (fun p => p.1 == k) then
    fields.map (fun p => if p.1 == k then (k, v) else p)
  else fields ++ [(k, v)]

/-- Lines 499: the record pushed on failure when `continueOnFail()` holds:
`{ json: { error: err.message }, binary: items[i].binary }`. -/
def errorItem (msg : String) (origBinary : List (String × BinaryData)) : Item :=
  { json := [("error", JValue.str msg)], binary := origBinary }

/-- Lines 483-494: the success record: the original json spread together
with the `compression` summary, and the original binary map with the
output slot replaced or added. -/
def successItem (orig : Item) (outputSlot : String) (outBin : BinaryData)
    (originalSize newSize : ℕ) (pr : ℚ) (format : String) : Item :=
  { json := setKey orig.json "compression" (JValue.comp originalSize newSize pr format),
    binary := setKey orig.binary outputSlot outBin }

/-- Outcome of the try-block body (lines 148-233) on one item: the pushed
success record, or the thrown error's message. -/
inductive StepResult where
  | ok : Item → StepResult
  | err : String → StepResult
deriving DecidableEq

/-- Lines 146-242: the per-item loop with its catch block, as explicit state
passing.  Returns the contents of `returnData` contributed from position `i`
on, the message of the exception that escaped `execute` (or `none`), and the
indices whose try-block body was entered.  On a failure with
`continueOnFail()` false the loop rethrows: nothing more is pushed and no
later record is attempted. -/
def executeLoop (step : ℕ → Item → StepResult) (continueOnFail : Bool) :
    ℕ → List Item → List Item × Option String × List ℕ
  | _, [] => ([], none, [])
  | i, item :: rest =>
    match step i item with
    | StepResult.ok out =>
      let r := executeLoop step continueOnFail (i + 1) rest
      (out :: r.1, r.2.1, i :: r.2.2)
    | StepResult.err msg =>
      if continueOnFail then
        let r := executeLoop step continueOnFail (i + 1) rest
        (errorItem msg item.binary :: r.1, r.2.1, i :: r.2.2)
      else ([], some msg, [i])

/-- A sample binary payload, used by concrete witnesses. -/
def sampleBin : BinaryData :=
  { fileName := some ("a.png"), mimeType := some ("image/png"), data := [1, 2, 3] }

/-- A sample input item with one structured field and one binary slot. -/
def sampleA : Item :=
  { json := [("foo", JValue.str ("x"))], binary := [("data", sampleBin)] }

/-- A sample success output item. -/
def sampleOut : Item :=
  { json := [("ok", JValue.bool true)], binary := [] }

/-- A sample input item standing for a malformed record. -/
def sampleBad : Item :=
  { json := [("bar", JValue.num 2)], binary := [("data", sampleBin)] }

/-- A sample input item with no fields. -/
def sampleC : Item :=
  { json := [], binary := [] }

/-- A sample step function: succeeds on the first record, fails afterwards. -/
def stepW : ℕ → Item → StepResult := fun j _ =>
  if j = 0 then StepResult.ok sampleOut else StepResult.err ("fail")

/-- A sample step function: fails exactly on the second record. -/
def stepW2 : ℕ → Item → StepResult := fun j _ =>
  if j = 1 then StepResult.err ("boom") else StepResult.ok sampleOut

/-! ## Helper lemmas -/

theorem jsRound_intCast (n : ℤ) : jsRound (n : ℚ) = n := by
  unfold jsRound
  rw [Int.floor_int_add]
  norm_num

theorem clamp_int_0_100 (n : ℤ) :
    clamp ((n : ℤ) : ℚ) 0 100 = ((min (max n 0) 100 : ℤ) : ℚ) := by
  unfold clamp
  push_cast
  rfl

theorem clamp_int_0_9 (n : ℤ) :
    clamp ((n : ℤ) : ℚ) 0 9 = ((min (max n 0) 9 : ℤ) : ℚ) := by
  unfold clamp
  push_cast
  rfl

/-! ## C1: PNG compression level from quality -/

/-- C1: for every integer quality `q ∈ [0,100]`, the PNG compression level
equals `round((100 - q) * 9 / 100)` clamped to `[0,9]` (with JavaScript's
`Math.round`, half away from zero for positive values); in particular
quality 100 maps to level 0, quality 80 to 2, quality 50 to 5, quality 0
to 9. -/
theorem png_level_formula (q : ℤ) (h0 : 0 ≤ q) (h1 : q ≤ 100) :
    pngCompressionLevelFromQuality (q : ℚ)
      = ((min (max (jsRound (((100 : ℚ) - (q : ℚ)) * 9 / 100)) 0) 9 : ℤ) : ℚ)
    ∧ pngCompressionLevelFromQuality 100 = 0
    ∧ pngCompressionLevelFromQuality 80 = 2
    ∧ pngCompressionLevelFromQuality 50 = 5
    ∧ pngCompressionLevelFromQuality 0 = 9 := by
  refine ⟨?_, ?_, ?_, ?_, ?_⟩
  · unfold pngCompressionLevelFromQuality clamp
    rw [jsRound_intCast]
    have hmax : max ((q : ℤ) : ℚ) 0 = ((q : ℤ) : ℚ) := max_eq_left (by exact_mod_cast h0)
    have hmin : min ((q : ℤ) : ℚ) 100 = ((q : ℤ) : ℚ) := min_eq_left (by exact_mod_cast h1)
    rw [hmax, hmin]
    push_cast
    rfl
  all_goals norm_num [pngCompressionLevelFromQuality, clamp, jsRound, min_def, max_def]

/-- Witness for C1 at quality 80. -/
theorem png_level_formula_witness :
    pngCompressionLevelFromQuality ((80 : ℤ) : ℚ)
      = ((min (max (jsRound (((100 : ℚ) - ((80 : ℤ) : ℚ)) * 9 / 100)) 0) 9 : ℤ) : ℚ) :=
  (png_level_formula 80 (by norm_num) (by norm_num)).1

/-! ## C10: totality and range of the PNG level mapping -/

/-- C10: `pngCompressionLevelFromQuality` is total on all rational inputs,
including non-integers and values outside `[0,100]`: it agrees with itself
applied to the rounded-and-clamped input (it first rounds to the nearest
integer and clamps to `[0,100]`), and its result is always an integer in
`[0,9]`. -/
theorem png_level_total (q : ℚ) :
    pngCompressionLevelFromQuality q
      = pngCompressionLevelFromQuality (clamp (jsRound q) 0 100)
    ∧ ∃ n : ℤ, pngCompressionLevelFromQuality q = (n : ℚ) ∧ 0 ≤ n ∧ n ≤ 9 := by
  have hM0 : (0 : ℤ) ≤ min (max (jsRound q) 0) 100 :=
    le_min (le_max_right _ 0) (by norm_num)
  have hM100 : min (max (jsRound q) 0) 100 ≤ 100 := min_le_right _ 100
  constructor
  · unfold pngCompressionLevelFromQuality
    rw [clamp_int_0_100, jsRound_intCast, clamp_int_0_100,
      max_eq_left hM0, min_eq_left hM100]
  · refine ⟨min (max (jsRound ((100 - clamp ((jsRound q : ℤ) : ℚ) 0 100) * 9 / 100)) 0) 9,
      ?_, le_min (le_max_right _ 0) (by norm_num), min_le_right _ 9⟩
    unfold pngCompressionLevelFromQuality
    rw [clamp_int_0_9]

/-- Witness for C10 at the non-integer out-of-range quality 100.5. -/
theorem png_level_total_witness :
    pngCompressionLevelFromQuality ((201 : ℚ)/2)
      = pngCompressionLevelFromQuality (clamp (jsRound ((201 : ℚ)/2)) 0 100) :=
  (png_level_total ((201 : ℚ)/2)).1

/-! ## C3: the size guard boundary -/

/-- C3: the size guard rejects iff the input byte length exceeds
`max(1, ⌊maxMegabytes⌋) * 1024 * 1024`; an input of exactly that many bytes
passes and one of that size plus one byte fails. -/
theorem size_guard_boundary (originalSize : ℕ) (m : ℚ) :
    ((∃ e, sizeGuard originalSize m = Except.error e)
      ↔ (originalSize : ℤ) > max 1 ⌊m⌋ * 1024 * 1024)
    ∧ sizeGuard ((max 1 ⌊m⌋).toNat * 1024 * 1024) m = Except.ok ()
    ∧ (∃ e, sizeGuard ((max 1 ⌊m⌋).toNat * 1024 * 1024 + 1) m = Except.error e) := by
  have hpos : (0 : ℤ) ≤ max 1 ⌊m⌋ := le_trans zero_le_one (le_max_left _ _)
  have hcast : (((max 1 ⌊m⌋).toNat * 1024 * 1024 : ℕ) : ℤ) = max 1 ⌊m⌋ * 1024 * 1024 := by
    push_cast [Int.toNat_of_nonneg hpos]
    ring
  refine ⟨⟨?_, ?_⟩, ?_, ?_⟩
  · intro ⟨e, he⟩
    by_contra hn
    unfold sizeGuard maxBytesOf at he
    rw [if_neg hn] at he
    exact Except.noConfusion he
  · intro h
    refine ⟨("Input image is too large. Max allowed exceeded."), ?_⟩
    unfold sizeGuard maxBytesOf
    rw [if_pos h]
  · unfold sizeGuard maxBytesOf
    rw [if_neg (by rw [hcast]; exact lt_irrefl _)]
  · have hgt : (((max 1 ⌊m⌋).toNat * 1024 * 1024 + 1 : ℕ) : ℤ)
        > max 1 ⌊m⌋ * 1024 * 1024 := by
      push_cast [Int.toNat_of_nonneg hpos]
      linarith
    refine ⟨("Input image is too large. Max allowed exceeded."), ?_⟩
    unfold sizeGuard maxBytesOf
    rw [if_pos hgt]

/-- Witness for C3 at a fractional limit of 1.5 megabytes: exactly
`max(1, ⌊1.5⌋) * 1024 * 1024` bytes pass. -/
theorem size_guard_boundary_witness :
    sizeGuard ((max 1 ⌊(3 : ℚ)/2⌋).toNat * 1024 * 1024) ((3 : ℚ)/2) = Except.ok () :=
  (size_guard_boundary 0 ((3 : ℚ)/2)).2.1

/-! ## C4: the percentReduction formula -/

/-- C4 counterexample: `percentReduction` is 0 at `(5,5)` although the
original size is nonzero (so "equals 0 exactly when originalSize is 0"
fails), and is 0 — not negative — at `(0,1)` although the new size exceeds
the original (so "negative whenever newSize > originalSize" fails). -/
theorem percent_reduction_counterexample :
    percentReduction 5 5 = 0 ∧ (5 : ℕ) ≠ 0
    ∧ percentReduction 0 1 = 0 ∧ (0 : ℕ) < 1 ∧ ¬ percentReduction 0 1 < 0 := by
  norm_num [percentReduction]

/-- C4 amended: `percentReduction` equals 0 when the original size is 0,
otherwise equals `(originalSize - newSize) / originalSize * 100`, and it is
negative whenever the new size exceeds a nonzero original size. -/
theorem percent_reduction_amended (originalSize newSize : ℕ) :
    (originalSize = 0 → percentReduction originalSize newSize = 0)
    ∧ (0 < originalSize →
        percentReduction originalSize newSize
          = (((originalSize : ℚ) - (newSize : ℚ)) / (originalSize : ℚ)) * 100)
    ∧ (0 < originalSize → originalSize < newSize →
        percentReduction originalSize newSize < 0) := by
  refine ⟨?_, ?_, ?_⟩
  · intro h
    subst h
    simp [percentReduction]
  · intro h
    simp [percentReduction, h]
  · intro h hlt
    have hQ : (0 : ℚ) < (originalSize : ℚ) := by exact_mod_cast h
    have hsub : ((originalSize : ℚ) - (newSize : ℚ)) < 0 := by
      have hc : (originalSize : ℚ) < (newSize : ℚ) := by exact_mod_cast hlt
      linarith
    unfold percentReduction
    rw [if_pos h]
    exact mul_neg_of_neg_of_pos (div_neg_of_neg_of_pos hsub hQ) (by norm_num)

/-- Witness for the amended C4 at sizes (4, 8). -/
theorem percent_reduction_amended_witness :
    percentReduction 4 8 < 0 :=
  (percent_reduction_amended 4 8).2.2 (by norm_num) (by norm_num)

/-! ## C6: when the resize call is made -/

/-- A computed dimension is truthy in `width || height` iff the supplied
value is a number `≥ 1`: for `0 < x < 1` the code stores `⌊x⌋ = 0`, which is
falsy. -/
theorem dimOf_truthy (d : Option ℚ) :
    jsTruthyNum (dimOf d) = true ↔ ∃ x, d = some x ∧ 1 ≤ x := by
  cases d with
  | none => simp [dimOf, jsTruthyNum]
  | some x =>
    by_cases hx : 0 < x
    · have h0 : 0 ≤ ⌊x⌋ := Int.floor_nonneg.mpr (le_of_lt hx)
      have h1 : (1 ≤ ⌊x⌋) ↔ (1 : ℚ) ≤ x := by
        rw [Int.le_floor]
        norm_num
      simp only [dimOf, if_pos hx, jsTruthyNum, bne_iff_ne, ne_eq, Option.some.injEq]
      constructor
      · intro hne
        exact ⟨x, rfl, h1.mp (by omega)⟩
      · rintro ⟨x1, hx1, hle⟩
        cases hx1
        have h2 := h1.mpr hle
        omega
    · have hnone : dimOf (some x) = none := by simp [dimOf, hx]
      rw [hnone]
      simp only [jsTruthyNum, Bool.false_eq_true, false_iff]
      rintro ⟨x1, hx1, hle⟩
      cases hx1
      exact hx (lt_of_lt_of_le zero_lt_one hle)

/-- C6 counterexample: width 1/2 is a positive number, so the claim says the
codec resize is invoked, but `Math.floor(0.5) = 0` is falsy in
`width || height` and no resize call is made. -/
theorem resize_counterexample :
    (∃ x, (ResizeSpec.mk (some (1/2)) none none).width = some x ∧ 0 < x)
    ∧ resizeCallOf (ResizeSpec.mk (some (1/2)) none none) = none := by
  refine ⟨⟨1/2, rfl, by norm_num⟩, ?_⟩
  have hdim : dimOf (some ((1 : ℚ)/2)) = some 0 := by
    norm_num [dimOf]
  unfold resizeCallOf
  rw [hdim]
  simp [jsTruthyNum, dimOf]

/-- C6 corrected: no resize call is made iff neither dimension is a number
`≥ 1` (in particular none when neither is a positive number, but also none
for positive values below 1); every resize call that is made has
`withoutEnlargement` set and fit `inside` when `maintainAspectRatio` is not
explicitly false (the default), `fill` otherwise. -/
theorem resize_amended (r : ResizeSpec) :
    (resizeCallOf r = none
      ↔ ¬ ((∃ x, r.width = some x ∧ 1 ≤ x) ∨ (∃ y, r.height = some y ∧ 1 ≤ y)))
    ∧ (∀ call, resizeCallOf r = some call →
        call.withoutEnlargement = true
        ∧ call.fit = (if r.maintainAspect ≠ some false then Fit.inside else Fit.fill)) := by
  have hdisj : (jsTruthyNum (dimOf r.width) || jsTruthyNum (dimOf r.height)) = true
      ↔ ((∃ x, r.width = some x ∧ 1 ≤ x) ∨ (∃ y, r.height = some y ∧ 1 ≤ y)) := by
    rw [Bool.or_eq_true, dimOf_truthy, dimOf_truthy]
  have hbody : resizeCallOf r
      = (if jsTruthyNum (dimOf r.width) || jsTruthyNum (dimOf r.height) then
          some { width := dimOf r.width, height := dimOf r.height,
                 fit := if decide (r.maintainAspect ≠ some false) then Fit.inside else Fit.fill,
                 withoutEnlargement := true }
        else none) := rfl
  constructor
  · rw [hbody]
    by_cases hcond : (jsTruthyNum (dimOf r.width) || jsTruthyNum (dimOf r.height)) = true
    · rw [if_pos hcond]
      constructor
      · intro h
        exact Option.noConfusion h
      · intro hn
        exact absurd (hdisj.mp hcond) hn
    · rw [if_neg hcond]
      constructor
      · intro _ hor
        exact hcond (hdisj.mpr hor)
      · intro _
        rfl
  · intro call hcall
    rw [hbody] at hcall
    by_cases hcond : (jsTruthyNum (dimOf r.width) || jsTruthyNum (dimOf r.height)) = true
    · rw [if_pos hcond] at hcall
      cases hcall
      refine ⟨rfl, ?_⟩
      simp only [decide_eq_true_eq]
    · rw [if_neg hcond] at hcall
      exact Option.noConfusion hcall

/-- Witness for the corrected C6: width 1 makes a resize call with fit
`inside` and `withoutEnlargement` set. -/
theorem resize_amended_witness :
    (ResizeCall.mk (some 1) none Fit.inside true).withoutEnlargement = true
    ∧ (ResizeCall.mk (some 1) none Fit.inside true).fit
        = (if (ResizeSpec.mk (some 1) none none).maintainAspect ≠ some false
           then Fit.inside else Fit.fill) :=
  (resize_amended (ResizeSpec.mk (some 1) none none)).2
    (ResizeCall.mk (some 1) none Fit.inside true)
    (by simp [resizeCallOf, dimOf, jsTruthyNum, Int.floor_one])

/-! ## C7: output filename derivation -/

/-- C7: the output filename is the source filename's base name with its
extension discarded, followed by a dot and the canonical extension of the
target format; `photo.tiff` with target png yields `photo.png`, and an
absent source name defaults to base name `image`. -/
theorem output_filename_spec :
    outFileName (some ("photo.tiff")) ("png") = "photo.png"
    ∧ (∀ fmt : String, (fmt = "jpg" ∨ fmt = "png" ∨ fmt = "webp" ∨ fmt = "avif") →
        outFileName none fmt = "image" ++ "." ++ (getMimeAndExt fmt).2
        ∧ ∀ f : String, f ≠ "" →
            outFileName (some f) fmt = parseName f ++ "." ++ (getMimeAndExt fmt).2)
    ∧ (getMimeAndExt ("jpg")).2 = "jpg" ∧ (getMimeAndExt ("png")).2 = "png"
    ∧ (getMimeAndExt ("webp")).2 = "webp" ∧ (getMimeAndExt ("avif")).2 = "avif" := by
  refine ⟨by decide, ?_, rfl, rfl, rfl, rfl⟩
  intro fmt hfmt
  constructor
  · rfl
  · intro f hf
    show (if f = "" then "image" else parseName f) ++ "." ++ (getMimeAndExt fmt).2
        = parseName f ++ "." ++ (getMimeAndExt fmt).2
    rw [if_neg hf]

/-- Witness for C7 at source `photo.tiff` and format png. -/
theorem output_filename_witness :
    outFileName (some ("photo.tiff")) ("png")
      = parseName ("photo.tiff") ++ "." ++ (getMimeAndExt ("png")).2 :=
  (output_filename_spec.2.1 ("png") (by decide)).2 ("photo.tiff") (by decide)

/-! ## C8: data-URI stripping in base64 mode -/

/-- `breakAtSemi` splits exactly at the first `;`. -/
theorem breakAtSemi_append (m rest : List Char) (h : ';' ∉ m) :
    breakAtSemi (m ++ ';' :: rest) = some (m, rest) := by
  induction m with
  | nil => simp [breakAtSemi]
  | cons c cs ih =>
    have hc : c ≠ ';' := fun hcc => h (hcc ▸ List.mem_cons_self c cs)
    have hcs : ';' ∉ cs := fun hin => h (List.mem_cons_of_mem c hin)
    simp [breakAtSemi, if_neg hc, ih hcs]

/-- A well-formed data-URI marker — `data:` then a nonempty `;`-free mime
token then `;base64,` — is stripped exactly, leaving the payload. -/
theorem stripDataUri_wellFormed (m s : List Char) (hm : m ≠ []) (hsemi : ';' ∉ m) :
    stripDataUriChars
        (('d' :: 'a' :: 't' :: 'a' :: ':' :: []) ++ m
          ++ (';' :: 'b' :: 'a' :: 's' :: 'e' :: '6' :: '4' :: ',' :: []) ++ s)
      = s := by
  have hassoc : ('d' :: 'a' :: 't' :: 'a' :: ':' :: []) ++ m
      ++ (';' :: 'b' :: 'a' :: 's' :: 'e' :: '6' :: '4' :: ',' :: []) ++ s
      = 'd' :: 'a' :: 't' :: 'a' :: ':'
        :: (m ++ ';' :: (('b' :: 'a' :: 's' :: 'e' :: '6' :: '4' :: ',' :: []) ++ s)) := by
    simp
  rw [hassoc]
  unfold stripDataUriChars
  have htake : ('d' :: 'a' :: 't' :: 'a' :: ':'
      :: (m ++ ';' :: (('b' :: 'a' :: 's' :: 'e' :: '6' :: '4' :: ',' :: []) ++ s))).take 5
      = ('d' :: 'a' :: 't' :: 'a' :: ':' :: []) := rfl
  rw [if_pos htake]
  have hdrop : ('d' :: 'a' :: 't' :: 'a' :: ':'
      :: (m ++ ';' :: (('b' :: 'a' :: 's' :: 'e' :: '6' :: '4' :: ',' :: []) ++ s))).drop 5
      = m ++ ';' :: (('b' :: 'a' :: 's' :: 'e' :: '6' :: '4' :: ',' :: []) ++ s) := rfl
  rw [hdrop, breakAtSemi_append m _ hsemi]
  have hcond : m ≠ []
      ∧ ((('b' :: 'a' :: 's' :: 'e' :: '6' :: '4' :: ',' :: []) ++ s)).take 7
        = ('b' :: 'a' :: 's' :: 'e' :: '6' :: '4' :: ',' :: []) := ⟨hm, rfl⟩
  dsimp only
  rw [if_pos hcond]
  rfl

/-- C8 counterexample: the claimed identity fails when the raw payload `s`
itself begins with a data-URI marker: resolving the wrapped value strips one
marker and then Base64-decodes the still-marked payload, while resolving `s`
strips the payload's own marker first. -/
theorem base64_strip_counterexample :
    resolveBase64Field ("data:" ++ "image/png" ++ ";base64," ++ "data:image/png;base64,AAAA")
      ≠ resolveBase64Field ("data:image/png;base64,AAAA") := by
  decide

/-- C8 corrected: for every mime token `m` that is nonempty and `;`-free and
every payload `s` that the stripper leaves unchanged (in particular any
payload not itself starting with a data-URI marker), resolving
`data:<m>;base64,<s>` yields exactly the bytes of resolving `s`. -/
theorem base64_strip_amended (m s : String)
    (hm : m.data ≠ []) (hsemi : ';' ∉ m.data)
    (hs : stripDataUriChars s.data = s.data) :
    resolveBase64Field ("data:" ++ m ++ ";base64," ++ s) = resolveBase64Field s := by
  unfold resolveBase64Field
  rw [hs]
  congr 1
  have hdata : ("data:" ++ m ++ ";base64," ++ s).data
      = ('d' :: 'a' :: 't' :: 'a' :: ':' :: []) ++ m.data
        ++ (';' :: 'b' :: 'a' :: 's' :: 'e' :: '6' :: '4' :: ',' :: []) ++ s.data := rfl
  rw [hdata, stripDataUri_wellFormed m.data s.data hm hsemi]

/-- Witness for the corrected C8: the spec's own example,
`data:image/png;base64,AAAA` against raw `AAAA`. -/
theorem base64_strip_amended_witness :
    resolveBase64Field ("data:" ++ "image/png" ++ ";base64," ++ "AAAA")
      = resolveBase64Field ("AAAA") :=
  base64_strip_amended ("image/png") ("AAAA") (by decide) (by decide) (by decide)

/-! ## C2: abort on first failure without failure tolerance -/

/-- The abort behaviour of the loop, generalised to any start index: with
`continueOnFail` false, successes accumulate until the first failing record,
whose error escapes; nothing after it is attempted. -/
theorem executeLoop_abort_aux (step : ℕ → Item → StepResult) :
    ∀ (pre : List Item) (i : ℕ) (outs : List Item) (bad : Item) (post : List Item)
      (msg : String),
      outs.length = pre.length →
      (∀ j (hj : j < pre.length) (hj2 : j < outs.length),
        step (i + j) (pre.get ⟨j, hj⟩) = StepResult.ok (outs.get ⟨j, hj2⟩)) →
      step (i + pre.length) bad = StepResult.err msg →
      executeLoop step false i (pre ++ bad :: post)
        = (outs, some msg, List.range' i (pre.length + 1)) := by
  intro pre
  induction pre with
  | nil =>
    intro i outs bad post msg hlen hok hbad
    have houts : outs = [] := List.eq_nil_of_length_eq_zero hlen
    subst houts
    simp only [List.length_nil, Nat.add_zero] at hbad
    simp [executeLoop, hbad, List.range']
  | cons p ptl ih =>
    intro i outs bad post msg hlen hok hbad
    cases outs with
    | nil =>
      simp at hlen
    | cons o otl =>
      have hlen2 : otl.length = ptl.length := by simpa using hlen
      have h0 : step i p = StepResult.ok o := by
        have h := hok 0 (by simp) (by simp)
        simpa using h
      have hrec := ih (i + 1) otl bad post msg hlen2 ?_ ?_
      · show executeLoop step false i ((p :: ptl) ++ bad :: post) = _
        rw [List.cons_append]
        simp only [executeLoop, h0, hrec]
        simp [List.range'_succ]
      · intro j hj hj2
        have h := hok (j + 1) (by simpa using Nat.succ_lt_succ hj)
          (by simpa using Nat.succ_lt_succ hj2)
        have harith : i + (j + 1) = i + 1 + j := by omega
        rw [harith] at h
        exact h
      · have harith : i + (p :: ptl).length = i + 1 + ptl.length := by
          simp only [List.length_cons]
          omega
        rw [harith] at hbad
        exact hbad

/-- C2: with failure tolerance off, if every record before position `k`
(0-based) succeeds and the record at position `k` fails, the loop's output
array holds exactly the `k` already-processed records in order, the failing
record's error escapes, and only positions `0..k` are ever attempted —
records after the failing one are never attempted (the tail `post` is
arbitrary and unexamined). -/
theorem abort_on_first_failure (step : ℕ → Item → StepResult)
    (pre outs : List Item) (bad : Item) (post : List Item) (msg : String)
    (hlen : outs.length = pre.length)
    (hok : ∀ j (hj : j < pre.length) (hj2 : j < outs.length),
      step j (pre.get ⟨j, hj⟩) = StepResult.ok (outs.get ⟨j, hj2⟩))
    (hbad : step pre.length bad = StepResult.err msg) :
    executeLoop step false 0 (pre ++ bad :: post)
      = (outs, some msg, List.range' 0 (pre.length + 1)) := by
  refine executeLoop_abort_aux step pre 0 outs bad post msg hlen ?_ ?_
  · intro j hj hj2
    simpa using hok j hj hj2
  · simpa using hbad

/-- Witness for C2: a two-record batch whose second record fails yields the
one processed record, the escaping error, and no attempt past index 1. -/
theorem abort_on_first_failure_witness :
    executeLoop stepW false 0 ([sampleA] ++ sampleBad :: [sampleC])
      = ([sampleOut], some ("fail"), List.range' 0 2) :=
  abort_on_first_failure stepW [sampleA] [sampleOut] sampleBad [sampleC] ("fail")
    (by decide) (by decide) (by decide)

/-! ## C5: failure isolation with failure tolerance on -/

/-- C5: with failure tolerance on, a batch of three records whose second
record alone fails yields three output records in input order; the second
output carries exactly an `error` field and the failing record's original
binary payload map untouched, and the other two are the step's normal
outputs. -/
theorem tolerant_batch_isolates_failure (step : ℕ → Item → StepResult)
    (a b c oa oc : Item) (msg : String)
    (ha : step 0 a = StepResult.ok oa) (hb : step 1 b = StepResult.err msg)
    (hc : step 2 c = StepResult.ok oc) :
    executeLoop step true 0 [a, b, c]
      = ([oa, errorItem msg b.binary, oc], none, [0, 1, 2])
    ∧ (errorItem msg b.binary).json = [("error", JValue.str msg)]
    ∧ (errorItem msg b.binary).binary = b.binary := by
  refine ⟨?_, rfl, rfl⟩
  simp [executeLoop, ha, hb, hc]

/-- Witness for C5 on a concrete three-record batch. -/
theorem tolerant_batch_witness :
    executeLoop stepW2 true 0 [sampleA, sampleBad, sampleC]
      = ([sampleOut, errorItem ("boom") sampleBad.binary, sampleOut], none, [0, 1, 2]) :=
  (tolerant_batch_isolates_failure stepW2 sampleA sampleBad sampleC sampleOut sampleOut
    ("boom") rfl rfl rfl).1

/-! ## C9: the failing record's json is only the error field -/

/-- Membership in `setKey` is preserved for pairs whose key differs from the
assigned one. -/
theorem mem_setKey_of_ne {α : Type} (fields : List (String × α)) (k0 : String)
    (v0 : α) (k : String) (v : α) (hmem : (k, v) ∈ fields) (hne : k ≠ k0) :
    (k, v) ∈ setKey fields k0 v0 := by
  unfold setKey
  by_cases h : fields.any (fun p => p.1 == k0)
  · rw [if_pos h]
    refine List.mem_map.mpr ⟨(k, v), hmem, ?_⟩
    simp [hne]
  · rw [if_neg h]
    exact List.mem_append_left _ hmem

/-- The assigned pair always belongs to `setKey`. -/
theorem setKey_mem_self {α : Type} (fields : List (String × α)) (k0 : String)
    (v0 : α) : (k0, v0) ∈ setKey fields k0 v0 := by
  unfold setKey
  by_cases h : fields.any (fun p => p.1 == k0)
  · rw [if_pos h]
    obtain ⟨p, hp, hpk⟩ := List.any_eq_true.mp h
    have hk : p.1 = k0 := by simpa using hpk
    refine List.mem_map.mpr ⟨p, hp, ?_⟩
    simp [hk]
  · rw [if_neg h]
    exact List.mem_append_right _ (List.mem_singleton.mpr rfl)

/-- C9: when failure tolerance is on and a record fails, its output record's
structured data consists solely of the `error` field — none of the original
fields are carried over — unlike the success path, which keeps every
original field (other than a pre-existing `compression` key, which the
summary overwrites) alongside the added `compression` summary. -/
theorem error_record_json_shape (step : ℕ → Item → StepResult) (i : ℕ)
    (item : Item) (rest : List Item) (msg : String)
    (orig : Item) (slot : String) (outBin : BinaryData)
    (o n : ℕ) (pr : ℚ) (fmt : String)
    (hfail : step i item = StepResult.err msg) :
    (executeLoop step true i (item :: rest)).1.head? = some (errorItem msg item.binary)
    ∧ (errorItem msg item.binary).json = [("error", JValue.str msg)]
    ∧ (∀ k v, (k, v) ∈ orig.json → k ≠ "compression" →
        (k, v) ∈ (successItem orig slot outBin o n pr fmt).json)
    ∧ ("compression", JValue.comp o n pr fmt) ∈ (successItem orig slot outBin o n pr fmt).json := by
  refine ⟨?_, rfl, ?_, ?_⟩
  · simp [executeLoop, hfail]
  · intro k v hmem hne
    exact mem_setKey_of_ne orig.json "compression" _ k v hmem hne
  · exact setKey_mem_self orig.json "compression" _

/-- Witness for C9 with a concrete failing record and a concrete original
field on the success path. -/
theorem error_record_json_witness :
    (executeLoop stepW true 1 [sampleBad]).1.head? = some (errorItem ("fail") sampleBad.binary)
    ∧ ("foo", JValue.str ("x")) ∈ (successItem sampleA ("data") sampleBin 3 2 25 ("png")).json := by
  have h := error_record_json_shape stepW 1 sampleBad [] ("fail") sampleA ("data") sampleBin
    3 2 25 ("png") rfl
  exact ⟨h.1, h.2.2.1 ("foo") (JValue.str ("x")) (by decide) (by decide)⟩

end CompressImage
